import Mathlib

set_option maxHeartbeats 1000000

/-!
Shallow embedding of the provider-settings reconciliation layer of
bolt.new-any-llm: the provider settings store (the module holding
autoEnableConfiguredProviders, getInitialProviderSettings and
updateProviderSettings) and the configured-providers detection endpoint
(app/routes/api.configured-providers.ts).

JS objects that map provider names to values are embedded as association
lists in insertion order; localStorage entries are embedded as explicit
sum types (absent, present-but-unparsable, parsed); the try/catch
boundary of the loader is embedded with Except.
-/

/-- The fixed list of local providers, as written in the settings store. -/
def LOCAL_PROVIDERS : List String := ["OpenAILike", "LMStudio", "Ollama"]

/-- Per-provider settings sub-record: the enabled flag plus the base URL
field that local providers may carry. -/
structure IProviderSettings where
  enabled : Bool
  baseUrl : Option String := Option.none
deriving DecidableEq

/-- Per-provider configuration entry held in the settings map; only the
settings sub-record is relevant to the reconciliation logic. -/
structure IProviderConfig where
  settings : IProviderSettings
deriving DecidableEq

/-- A JS object mapping provider names to configuration entries. -/
abbrev ProviderMap := List (String × IProviderConfig)

/-- JS object property read. -/
def objGet {α : Type} : List (String × α) → String → Option α
  | [], _ => Option.none
  | (k1, v) :: rest, k => if k1 = k then some v else objGet rest k

/-- JS object property write: replace the existing entry in place, or
append a new one at the end. -/
def objSet {α : Type} : List (String × α) → String → α → List (String × α)
  | [], k, v => [(k, v)]
  | (k1, v1) :: rest, k, v =>
      if k1 = k then (k, v) :: rest else (k1, v1) :: objSet rest k v

/-- The configMethod field of a detection report entry. -/
inductive ConfigMethod where
  | environment
  | none
deriving DecidableEq

/-- One entry of the detection report produced by the endpoint. -/
structure ConfiguredProvider where
  name : String
  isConfigured : Bool
  configMethod : ConfigMethod
deriving DecidableEq

/-- The persisted provider-settings snapshot: the localStorage entry is
absent, or present but failing JSON.parse, or parses to a list of
name/config entries. -/
inductive StoredSnapshot where
  | absent
  | malformed
  | parsed (entries : List (String × IProviderConfig))
deriving DecidableEq

/-- The reconciler state: in-memory store (providersStore), the persisted
snapshot entry (PROVIDER_SETTINGS_KEY) and the persisted auto-enabled
history entry (AUTO_ENABLED_KEY), the latter absent or parsed. -/
structure ReconcilerState where
  store : ProviderMap
  persisted : StoredSnapshot
  autoHistory : Option (List String)
deriving DecidableEq

/-- savedSettings !== null in autoEnableConfiguredProviders. -/
def hasUserSettings (st : ReconcilerState) : Bool :=
  match st.persisted with
  | StoredSnapshot.absent => false
  | _ => true

/-- The parsed auto-enabled history, defaulting to the empty list when
the entry is absent. -/
def histList (st : ReconcilerState) : List String :=
  st.autoHistory.getD []

/-- Copy a configuration entry with the enabled flag set to true. -/
def setEnabledTrue (c : IProviderConfig) : IProviderConfig :=
  { c with settings := { c.settings with enabled := true } }

/-- One insertion step of the JS Set construction: keep first
occurrences, append unseen elements at the end. -/
def insertUnique (l : List String) (x : String) : List String :=
  if x ∈ l then l else l ++ [x]

/-- The spread of a JS Set built from a list: deduplication preserving
first occurrences. -/
def jsSetDedup (l : List String) : List String :=
  l.foldl insertUnique []

/-- The body of the forEach loop in autoEnableConfiguredProviders,
threading the mutated settings object, the newlyAutoEnabled list and the
hasChanges flag. -/
def autoEnableStep (hasUser : Bool) (prevAuto : List String)
    (acc : ProviderMap × List String × Bool) (cp : ConfiguredProvider) :
    ProviderMap × List String × Bool :=
  match acc with
  | (m, newly, flag) =>
    if cp.isConfigured = true ∧ cp.configMethod = ConfigMethod.environment ∧
        cp.name ∈ LOCAL_PROVIDERS then
      match objGet m cp.name with
      | some currentProvider =>
        if currentProvider.settings.enabled = false ∧
            (hasUser = false ∨ cp.name ∈ prevAuto) then
          (objSet m cp.name (setEnabledTrue currentProvider), newly ++ [cp.name], true)
        else (m, newly, flag)
      | Option.none => (m, newly, flag)
    else (m, newly, flag)

/-- The whole forEach loop of autoEnableConfiguredProviders run over the
fetched report, starting from the current store, an empty
newlyAutoEnabled list and hasChanges = false. -/
def autoEnableFold (st : ReconcilerState) (report : List ConfiguredProvider) :
    ProviderMap × List String × Bool :=
  report.foldl (autoEnableStep (hasUserSettings st) (histList st)) (st.store, [], false)

/-- autoEnableConfiguredProviders: run the loop over the report; when
hasChanges, write the store, persist the whole map and persist the
deduplicated union of the old history with the newly enabled names;
otherwise leave every piece of state untouched. -/
def autoEnableConfiguredProviders (st : ReconcilerState)
    (report : List ConfiguredProvider) : ReconcilerState :=
  let r := autoEnableFold st report
  if r.2.2 then
    { store := r.1
      persisted := StoredSnapshot.parsed r.1
      autoHistory := some (jsSetDedup (histList st ++ r.2.1)) }
  else st

/-- The default entry built for each provider of PROVIDER_LIST: local
providers disabled, everything else enabled. -/
def defaultEntry (name : String) : IProviderConfig :=
  ⟨⟨if name ∈ LOCAL_PROVIDERS then false else true, Option.none⟩⟩

/-- The defaults loop of getInitialProviderSettings, over the names of
PROVIDER_LIST. -/
def defaultProviderSettings (pl : List String) : ProviderMap :=
  pl.foldl (fun m name => objSet m name (defaultEntry name)) []

/-- One step of the snapshot overlay: an entry whose key already exists
in the map replaces the settings sub-record of that entry; unknown keys
are ignored. -/
def overlayStep (acc : ProviderMap) (kv : String × IProviderConfig) : ProviderMap :=
  match objGet acc kv.1 with
  | some cur => objSet acc kv.1 { cur with settings := kv.2.settings }
  | Option.none => acc

/-- The Object.entries(parsed).forEach overlay loop. -/
def overlaySnapshot (entries : List (String × IProviderConfig)) (m : ProviderMap) :
    ProviderMap :=
  entries.foldl overlayStep m

/-- getInitialProviderSettings: defaults for every known provider, then
the overlay of a parsed snapshot; an absent or unparsable snapshot leaves
the defaults untouched. -/
def getInitialProviderSettings (pl : List String) (snap : StoredSnapshot) : ProviderMap :=
  match snap with
  | StoredSnapshot.parsed entries => overlaySnapshot entries (defaultProviderSettings pl)
  | _ => defaultProviderSettings pl

/-- A partial settings object passed to updateProviderSettings: a field
that is present (possibly with any value) overrides the stored one on
shallow merge. -/
structure SettingsPatch where
  enabled : Option Bool := Option.none
  baseUrl : Option (Option String) := Option.none
deriving DecidableEq

/-- The JS shallow merge of a patch over the stored settings sub-record. -/
def mergeSettings (old : IProviderSettings) (p : SettingsPatch) : IProviderSettings :=
  { enabled := p.enabled.getD old.enabled, baseUrl := p.baseUrl.getD old.baseUrl }

/-- updateAutoEnabledTracking: enabling pushes the name onto the history
when absent, disabling filters it out. -/
def updateAutoEnabledTracking (hist : Option (List String)) (providerName : String)
    (isEnabled : Bool) : Option (List String) :=
  let currentAutoEnabled := hist.getD []
  if isEnabled then
    if providerName ∈ currentAutoEnabled then hist
    else some (currentAutoEnabled ++ [providerName])
  else some (currentAutoEnabled.filter (fun n => decide (n ≠ providerName)))

/-- updateProviderSettings: shallow-merge the patch into the settings
sub-record of the named provider, write the store, persist the whole
map, and for local providers run the tracking update with the merged
enabled value (the merged settings always carry an enabled value in the
typed model, so the undefined check of the source is always met). An
unknown provider name makes the source throw on property access, which
the embedding reports as Option.none. -/
def updateProviderSettings (st : ReconcilerState) (provider : String)
    (patch : SettingsPatch) : Option ReconcilerState :=
  match objGet st.store provider with
  | Option.none => Option.none
  | some current =>
    let updatedProvider : IProviderConfig :=
      { current with settings := mergeSettings current.settings patch }
    let store1 := objSet st.store provider updatedProvider
    let autoHistory1 :=
      if provider ∈ LOCAL_PROVIDERS then
        updateAutoEnabledTracking st.autoHistory provider updatedProvider.settings.enabled
      else st.autoHistory
    some { store := store1, persisted := StoredSnapshot.parsed store1,
           autoHistory := autoHistory1 }

/-- JS truthiness-based disjunction of environment lookups: an empty
string is falsy and falls through to the next source. -/
def jsOrEnv (a b : Option String) : Option String :=
  match a with
  | some s => if s = "" then b else some s
  | Option.none => b

/-- The three-source environment probe of the loader: request-scoped
cloudflare env, then process env, then the registry-held env. -/
def envLookup3 (cf pe me : String → Option String) (key : String) : Option String :=
  jsOrEnv (cf key) (jsOrEnv (pe key) (me key))

/-- List-level test that the first list leads the second. -/
def beginsWith : List Char → List Char → Bool
  | [], _ => true
  | _ :: _, [] => false
  | a :: as, b :: bs => if a = b then beginsWith as bs else false

/-- JS String.prototype.includes. -/
def strIncludes (s sub : String) : Bool :=
  s.data.tails.any (fun t => beginsWith sub.data t)

/-- JS String.prototype.startsWith, applied to the raw value. -/
def jsStartsWith (s p : String) : Bool :=
  beginsWith p.data s.data

/-- The capability descriptor a provider registers: the environment keys
for its base URL and its API token, when declared. -/
structure ProviderEnvConfig where
  baseUrlKey : Option String := Option.none
  apiTokenKey : Option String := Option.none
deriving DecidableEq

/-- JS String.prototype.trim: drop whitespace from both ends. -/
def jsTrim (s : String) : String :=
  ⟨((s.data.dropWhile Char.isWhitespace).reverse.dropWhile Char.isWhitespace).reverse⟩

/-- The base-URL validity check of the loader: nonempty after trimming,
free of the placeholder markers, and starting (untrimmed) with http. -/
def isValidEnvValue (v : String) : Bool :=
  decide (0 < (jsTrim v).length) && !(strIncludes v "your_") && !(strIncludes v "_here")
    && jsStartsWith v "http"

/-- The API-token validity check of the loader: nonempty after trimming,
free of the placeholder markers, and longer than 10 characters. -/
def isValidApiToken (v : String) : Bool :=
  decide (0 < (jsTrim v).length) && !(strIncludes v "your_") && !(strIncludes v "_here")
    && decide (10 < v.length)

/-- The per-provider body of the loader loop: a missing registry entry
reports unconfigured; otherwise the base-URL probe and, when that fails,
the API-token probe decide the report entry. -/
def detectProvider (cf pe me : String → Option String)
    (registry : String → Option ProviderEnvConfig) (name : String) : ConfiguredProvider :=
  match registry name with
  | Option.none => ⟨name, false, ConfigMethod.none⟩
  | some config =>
    let baseOk : Bool :=
      match config.baseUrlKey with
      | some key =>
        match envLookup3 cf pe me key with
        | some v => isValidEnvValue v
        | Option.none => false
      | Option.none => false
    let tokenOk : Bool :=
      match config.apiTokenKey with
      | some key =>
        match envLookup3 cf pe me key with
        | some v => isValidApiToken v
        | Option.none => false
      | Option.none => false
    if baseOk || tokenOk then ⟨name, true, ConfigMethod.environment⟩
    else ⟨name, false, ConfigMethod.none⟩

/-- The successful pass of the loader: one entry per local provider, in
the LOCAL_PROVIDERS order. -/
def loaderDetect (cf pe me : String → Option String)
    (registry : String → Option ProviderEnvConfig) : List ConfiguredProvider :=
  LOCAL_PROVIDERS.map (detectProvider cf pe me registry)

/-- The fallback report returned by the catch branch of the loader. -/
def loaderFallbackProviders : List ConfiguredProvider :=
  LOCAL_PROVIDERS.map (fun name => ⟨name, false, ConfigMethod.none⟩)

/-- The catch boundary of the loader: a failing pass degrades to the
fallback report instead of propagating the failure. -/
def loader (attempt : Except String (List ConfiguredProvider)) : List ConfiguredProvider :=
  match attempt with
  | Except.ok providers => providers
  | Except.error _ => loaderFallbackProviders

/-- The exact condition under which the auto-enable loop flips the
provider k whose current entry is c, for one report entry cp: the entry
names k and passes the isConfigured, configMethod and local checks, k is
currently disabled, and either no snapshot was saved or k is in the
auto-enabled history. -/
def triggersAuto (hasUser : Bool) (prevAuto : List String) (c : IProviderConfig)
    (k : String) (cp : ConfiguredProvider) : Prop :=
  cp.name = k ∧ cp.isConfigured = true ∧ cp.configMethod = ConfigMethod.environment ∧
    k ∈ LOCAL_PROVIDERS ∧ c.settings.enabled = false ∧
    (hasUser = false ∨ k ∈ prevAuto)

instance (hasUser : Bool) (prevAuto : List String) (c : IProviderConfig)
    (k : String) (cp : ConfiguredProvider) :
    Decidable (triggersAuto hasUser prevAuto c k cp) := by
  unfold triggersAuto
  infer_instance

/-! Association-list object lemmas. -/

theorem objGet_objSet_self {α : Type} (m : List (String × α)) (k : String) (v : α) :
    objGet (objSet m k v) k = some v := by
  induction m with
  | nil => simp [objGet, objSet]
  | cons hd tl ih =>
    obtain ⟨k1, v1⟩ := hd
    by_cases h : k1 = k
    · simp [objSet, h, objGet]
    · simp [objSet, h, objGet, ih]

theorem objGet_objSet_ne {α : Type} (m : List (String × α)) (k k1 : String) (v : α)
    (h : k1 ≠ k) : objGet (objSet m k v) k1 = objGet m k1 := by
  have h2 : ¬(k = k1) := fun he => h he.symm
  induction m with
  | nil => simp [objGet, objSet, h2]
  | cons hd tl ih =>
    obtain ⟨k2, v2⟩ := hd
    by_cases h3 : k2 = k
    · subst h3
      simp [objSet, objGet, h2]
    · by_cases h4 : k2 = k1
      · simp [objSet, h3, objGet, h4, h]
      · simp [objSet, h3, objGet, h4, ih]

theorem mem_keys_of_objGet {α : Type} (m : List (String × α)) (k : String) (v : α)
    (h : objGet m k = some v) : k ∈ m.map Prod.fst := by
  induction m with
  | nil => simp [objGet] at h
  | cons hd tl ih =>
    obtain ⟨k1, v1⟩ := hd
    by_cases h1 : k1 = k
    · simp [h1]
    · rw [objGet, if_neg h1] at h
      simpa using Or.inr (ih h)

theorem objGet_eq_none_of_not_mem_keys {α : Type} (m : List (String × α)) (k : String)
    (h : k ∉ m.map Prod.fst) : objGet m k = Option.none := by
  induction m with
  | nil => rfl
  | cons hd tl ih =>
    obtain ⟨k1, v1⟩ := hd
    simp only [List.map_cons, List.mem_cons] at h
    push_neg at h
    rw [objGet, if_neg (fun he => h.1 he.symm)]
    exact ih h.2

theorem keys_objSet {α : Type} (m : List (String × α)) (k : String) (v : α) :
    (objSet m k v).map Prod.fst = insertUnique (m.map Prod.fst) k := by
  induction m with
  | nil => simp [objSet, insertUnique]
  | cons hd tl ih =>
    obtain ⟨k1, v1⟩ := hd
    by_cases h : k1 = k
    · subst h
      simp [objSet, insertUnique]
    · have h2 : ¬(k = k1) := fun he => h he.symm
      by_cases hmem : k ∈ tl.map Prod.fst <;>
        simp [objSet, h, insertUnique, hmem, h2, List.mem_cons, ih]

/-! insertUnique and jsSetDedup lemmas. -/

theorem mem_insertUnique (l : List String) (x y : String) :
    y ∈ insertUnique l x ↔ y ∈ l ∨ y = x := by
  unfold insertUnique
  by_cases h : x ∈ l
  · rw [if_pos h]
    constructor
    · exact Or.inl
    · rintro (hy | rfl)
      · exact hy
      · exact h
  · rw [if_neg h]
    simp [List.mem_append]

theorem nodup_insertUnique (l : List String) (x : String) (h : l.Nodup) :
    (insertUnique l x).Nodup := by
  unfold insertUnique
  by_cases hx : x ∈ l
  · rwa [if_pos hx]
  · rw [if_neg hx]
    refine List.nodup_append.mpr ⟨h, List.nodup_singleton x, ?_⟩
    intro a ha hax
    simp only [List.mem_singleton] at hax
    subst hax
    exact hx ha

theorem mem_foldl_insertUnique (l : List String) :
    ∀ (acc : List String) (y : String),
      y ∈ l.foldl insertUnique acc ↔ y ∈ acc ∨ y ∈ l := by
  induction l with
  | nil => intro acc y; simp
  | cons x rest ih =>
    intro acc y
    simp only [List.foldl_cons]
    rw [ih, mem_insertUnique, List.mem_cons]
    tauto

theorem nodup_foldl_insertUnique (l : List String) :
    ∀ acc : List String, acc.Nodup → (l.foldl insertUnique acc).Nodup := by
  induction l with
  | nil => intro acc h; simpa using h
  | cons x rest ih =>
    intro acc h
    simp only [List.foldl_cons]
    exact ih _ (nodup_insertUnique acc x h)

theorem mem_jsSetDedup (l : List String) (y : String) :
    y ∈ jsSetDedup l ↔ y ∈ l := by
  unfold jsSetDedup
  rw [mem_foldl_insertUnique]
  simp

theorem nodup_jsSetDedup (l : List String) : (jsSetDedup l).Nodup :=
  nodup_foldl_insertUnique l [] (by simp)

theorem foldl_insertUnique_of_nodup :
    ∀ (l acc : List String), (acc ++ l).Nodup → l.foldl insertUnique acc = acc ++ l := by
  intro l
  induction l with
  | nil => intro acc h; simp
  | cons x rest ih =>
    intro acc h
    have hx : x ∉ acc := by
      rcases List.nodup_append.mp h with ⟨_, _, hdisj⟩
      exact fun hmem => hdisj hmem (List.mem_cons_self x rest)
    simp only [List.foldl_cons]
    rw [insertUnique, if_neg hx, ih (acc ++ [x])
      (by rw [List.append_assoc, List.singleton_append]; exact h)]
    rw [List.append_assoc, List.singleton_append]

theorem jsSetDedup_of_nodup (l : List String) (h : l.Nodup) : jsSetDedup l = l := by
  unfold jsSetDedup
  rw [foldl_insertUnique_of_nodup l [] (by simpa using h)]
  simp

/-! Step equations for the auto-enable loop body. -/

theorem autoEnableStep_fire {hasUser : Bool} {prevAuto : List String} {m : ProviderMap}
    {newly : List String} {flag : Bool} {cp : ConfiguredProvider} {c : IProviderConfig}
    (hguard : cp.isConfigured = true ∧ cp.configMethod = ConfigMethod.environment ∧
      cp.name ∈ LOCAL_PROVIDERS)
    (hget : objGet m cp.name = some c)
    (hcond : c.settings.enabled = false ∧ (hasUser = false ∨ cp.name ∈ prevAuto)) :
    autoEnableStep hasUser prevAuto (m, newly, flag) cp =
      (objSet m cp.name (setEnabledTrue c), newly ++ [cp.name], true) := by
  simp [autoEnableStep, hguard.1, hguard.2.1, hguard.2.2, hget, hcond.1, hcond.2]

theorem autoEnableStep_skip_cond {hasUser : Bool} {prevAuto : List String} {m : ProviderMap}
    {newly : List String} {flag : Bool} {cp : ConfiguredProvider} {c : IProviderConfig}
    (hget : objGet m cp.name = some c)
    (hcond : ¬(c.settings.enabled = false ∧ (hasUser = false ∨ cp.name ∈ prevAuto))) :
    autoEnableStep hasUser prevAuto (m, newly, flag) cp = (m, newly, flag) := by
  by_cases hguard : cp.isConfigured = true ∧ cp.configMethod = ConfigMethod.environment ∧
      cp.name ∈ LOCAL_PROVIDERS
  · simp [autoEnableStep, hguard.1, hguard.2.1, hguard.2.2, hget, hcond]
  · simp [autoEnableStep, hguard]

theorem autoEnableStep_skip_none {hasUser : Bool} {prevAuto : List String} {m : ProviderMap}
    {newly : List String} {flag : Bool} {cp : ConfiguredProvider}
    (hget : objGet m cp.name = Option.none) :
    autoEnableStep hasUser prevAuto (m, newly, flag) cp = (m, newly, flag) := by
  by_cases hguard : cp.isConfigured = true ∧ cp.configMethod = ConfigMethod.environment ∧
      cp.name ∈ LOCAL_PROVIDERS
  · simp [autoEnableStep, hguard.1, hguard.2.1, hguard.2.2, hget]
  · simp [autoEnableStep, hguard]

theorem autoEnableStep_skip_guard {hasUser : Bool} {prevAuto : List String} {m : ProviderMap}
    {newly : List String} {flag : Bool} {cp : ConfiguredProvider}
    (hguard : ¬(cp.isConfigured = true ∧ cp.configMethod = ConfigMethod.environment ∧
      cp.name ∈ LOCAL_PROVIDERS)) :
    autoEnableStep hasUser prevAuto (m, newly, flag) cp = (m, newly, flag) := by
  simp [autoEnableStep, hguard]

/-! A skipped entry never satisfies the trigger condition and a fired
entry always does. -/

theorem not_triggersAuto_of_guard {hasUser : Bool} {prevAuto : List String}
    {c : IProviderConfig} {k : String} {cp : ConfiguredProvider}
    (hguard : ¬(cp.isConfigured = true ∧ cp.configMethod = ConfigMethod.environment ∧
      cp.name ∈ LOCAL_PROVIDERS)) :
    ¬triggersAuto hasUser prevAuto c k cp := by
  intro ht
  obtain ⟨hn, h1, h2, h3, _, _⟩ := ht
  exact hguard ⟨h1, h2, hn ▸ h3⟩

theorem not_triggersAuto_of_name {hasUser : Bool} {prevAuto : List String}
    {c : IProviderConfig} {k : String} {cp : ConfiguredProvider}
    (hname : cp.name ≠ k) : ¬triggersAuto hasUser prevAuto c k cp := by
  intro ht
  exact hname ht.1

theorem not_triggersAuto_of_cond {hasUser : Bool} {prevAuto : List String}
    {c : IProviderConfig} {cp : ConfiguredProvider}
    (hcond : ¬(c.settings.enabled = false ∧ (hasUser = false ∨ cp.name ∈ prevAuto))) :
    ¬triggersAuto hasUser prevAuto c cp.name cp := by
  intro ht
  obtain ⟨_, _, _, _, h5, h6⟩ := ht
  exact hcond ⟨h5, h6⟩

theorem exists_triggersAuto_cons {hasUser : Bool} {prevAuto : List String}
    {c : IProviderConfig} {k : String} {cp : ConfiguredProvider}
    {rest : List ConfiguredProvider}
    (h : ¬triggersAuto hasUser prevAuto c k cp) :
    (∃ e ∈ cp :: rest, triggersAuto hasUser prevAuto c k e) ↔
      (∃ e ∈ rest, triggersAuto hasUser prevAuto c k e) := by
  constructor
  · rintro ⟨e, he, ht⟩
    rcases List.mem_cons.mp he with rfl | he1
    · exact absurd ht h
    · exact ⟨e, he1, ht⟩
  · rintro ⟨e, he, ht⟩
    exact ⟨e, List.mem_cons_of_mem _ he, ht⟩

/-! Pointwise characterization of the loop result. -/

theorem objGet_foldl_autoEnableStep (hasUser : Bool) (prevAuto : List String)
    (k : String) (report : List ConfiguredProvider) :
    ∀ (m : ProviderMap) (newly : List String) (flag : Bool) (c : IProviderConfig),
      objGet m k = some c →
      objGet (report.foldl (autoEnableStep hasUser prevAuto) (m, newly, flag)).1 k =
        some (if ∃ e ∈ report, triggersAuto hasUser prevAuto c k e
              then setEnabledTrue c else c) := by
  induction report with
  | nil =>
    intro m newly flag c hget
    simp [hget]
  | cons cp rest ih =>
    intro m newly flag c hget
    simp only [List.foldl_cons]
    by_cases hguard : cp.isConfigured = true ∧ cp.configMethod = ConfigMethod.environment ∧
        cp.name ∈ LOCAL_PROVIDERS
    · by_cases hname : cp.name = k
      · subst hname
        by_cases hcond : c.settings.enabled = false ∧
            (hasUser = false ∨ cp.name ∈ prevAuto)
        · rw [autoEnableStep_fire hguard hget hcond]
          have hget2 : objGet (objSet m cp.name (setEnabledTrue c)) cp.name =
              some (setEnabledTrue c) := objGet_objSet_self m cp.name (setEnabledTrue c)
          rw [ih _ _ _ _ hget2]
          have hnot : ¬∃ e ∈ rest, triggersAuto hasUser prevAuto (setEnabledTrue c)
              cp.name e := by
            rintro ⟨e, _, ht⟩
            obtain ⟨_, _, _, _, h5, _⟩ := ht
            simp [setEnabledTrue] at h5
          have hpos : ∃ e ∈ cp :: rest, triggersAuto hasUser prevAuto c cp.name e :=
            ⟨cp, List.mem_cons_self cp rest,
              ⟨rfl, hguard.1, hguard.2.1, hguard.2.2, hcond.1, hcond.2⟩⟩
          rw [if_neg hnot, if_pos hpos]
        · rw [autoEnableStep_skip_cond hget hcond]
          rw [ih _ _ _ _ hget]
          simp only [exists_triggersAuto_cons (not_triggersAuto_of_cond hcond)]
      · cases hmo : objGet m cp.name with
        | none =>
          rw [autoEnableStep_skip_none hmo]
          rw [ih _ _ _ _ hget]
          simp only [exists_triggersAuto_cons (not_triggersAuto_of_name hname)]
        | some cur =>
          by_cases hcond : cur.settings.enabled = false ∧
              (hasUser = false ∨ cp.name ∈ prevAuto)
          · rw [autoEnableStep_fire hguard hmo hcond]
            have hget2 : objGet (objSet m cp.name (setEnabledTrue cur)) k = some c := by
              rw [objGet_objSet_ne m cp.name k (setEnabledTrue cur)
                (fun he => hname he.symm)]
              exact hget
            rw [ih _ _ _ _ hget2]
            simp only [exists_triggersAuto_cons (not_triggersAuto_of_name hname)]
          · rw [autoEnableStep_skip_cond hmo hcond]
            rw [ih _ _ _ _ hget]
            simp only [exists_triggersAuto_cons (not_triggersAuto_of_name hname)]
    · rw [autoEnableStep_skip_guard hguard]
      rw [ih _ _ _ _ hget]
      simp only [exists_triggersAuto_cons (not_triggersAuto_of_guard hguard)]

/-! Monotonicity of the newlyAutoEnabled list and the hasChanges flag. -/

theorem mem_newly_foldl (hasUser : Bool) (prevAuto : List String)
    (report : List ConfiguredProvider) :
    ∀ (acc : ProviderMap × List String × Bool) (x : String), x ∈ acc.2.1 →
      x ∈ (report.foldl (autoEnableStep hasUser prevAuto) acc).2.1 := by
  induction report with
  | nil => intro acc x hx; simpa using hx
  | cons cp rest ih =>
    intro acc x hx
    obtain ⟨m, newly, flag⟩ := acc
    simp only [List.foldl_cons]
    apply ih
    cases hmo : objGet m cp.name with
    | none => rw [autoEnableStep_skip_none hmo]; exact hx
    | some cur =>
      by_cases hguard : cp.isConfigured = true ∧
          cp.configMethod = ConfigMethod.environment ∧ cp.name ∈ LOCAL_PROVIDERS
      · by_cases hcond : cur.settings.enabled = false ∧
            (hasUser = false ∨ cp.name ∈ prevAuto)
        · rw [autoEnableStep_fire hguard hmo hcond]
          exact List.mem_append_left _ hx
        · rw [autoEnableStep_skip_cond hmo hcond]; exact hx
      · rw [autoEnableStep_skip_guard hguard]; exact hx

theorem flag_foldl_mono (hasUser : Bool) (prevAuto : List String)
    (report : List ConfiguredProvider) :
    ∀ (m : ProviderMap) (newly : List String),
      (report.foldl (autoEnableStep hasUser prevAuto) (m, newly, true)).2.2 = true := by
  induction report with
  | nil => intro m newly; rfl
  | cons cp rest ih =>
    intro m newly
    simp only [List.foldl_cons]
    cases hmo : objGet m cp.name with
    | none => rw [autoEnableStep_skip_none hmo]; exact ih m newly
    | some cur =>
      by_cases hguard : cp.isConfigured = true ∧
          cp.configMethod = ConfigMethod.environment ∧ cp.name ∈ LOCAL_PROVIDERS
      · by_cases hcond : cur.settings.enabled = false ∧
            (hasUser = false ∨ cp.name ∈ prevAuto)
        · rw [autoEnableStep_fire hguard hmo hcond]; exact ih _ _
        · rw [autoEnableStep_skip_cond hmo hcond]; exact ih m newly
      · rw [autoEnableStep_skip_guard hguard]; exact ih m newly

/-! A triggered provider ends up in the newlyAutoEnabled list and raises
the hasChanges flag. -/

theorem foldl_autoEnableStep_fires (hasUser : Bool) (prevAuto : List String)
    (k : String) (report : List ConfiguredProvider) :
    ∀ (m : ProviderMap) (newly : List String) (flag : Bool) (c : IProviderConfig),
      objGet m k = some c →
      (∃ e ∈ report, triggersAuto hasUser prevAuto c k e) →
      k ∈ (report.foldl (autoEnableStep hasUser prevAuto) (m, newly, flag)).2.1 ∧
        (report.foldl (autoEnableStep hasUser prevAuto) (m, newly, flag)).2.2 = true := by
  induction report with
  | nil =>
    intro m newly flag c hget htrig
    obtain ⟨e, he, _⟩ := htrig
    simp at he
  | cons cp rest ih =>
    intro m newly flag c hget htrig
    simp only [List.foldl_cons]
    by_cases hname : cp.name = k
    · subst hname
      by_cases hcond : c.settings.enabled = false ∧
          (hasUser = false ∨ cp.name ∈ prevAuto)
      · by_cases hguard : cp.isConfigured = true ∧
            cp.configMethod = ConfigMethod.environment ∧ cp.name ∈ LOCAL_PROVIDERS
        · rw [autoEnableStep_fire hguard hget hcond]
          constructor
          · exact mem_newly_foldl hasUser prevAuto rest _ cp.name
              (List.mem_append_right newly (List.mem_singleton.mpr rfl))
          · exact flag_foldl_mono hasUser prevAuto rest _ _
        · rw [autoEnableStep_skip_guard hguard]
          refine ih m newly flag c hget ?_
          rw [← exists_triggersAuto_cons (not_triggersAuto_of_guard hguard)]
          exact htrig
      · rw [autoEnableStep_skip_cond hget hcond]
        refine ih m newly flag c hget ?_
        rw [← exists_triggersAuto_cons (not_triggersAuto_of_cond hcond)]
        exact htrig
    · have htrig2 : ∃ e ∈ rest, triggersAuto hasUser prevAuto c k e := by
        rw [← exists_triggersAuto_cons (not_triggersAuto_of_name hname)]
        exact htrig
      cases hmo : objGet m cp.name with
      | none =>
        rw [autoEnableStep_skip_none hmo]
        exact ih m newly flag c hget htrig2
      | some cur =>
        by_cases hguard : cp.isConfigured = true ∧
            cp.configMethod = ConfigMethod.environment ∧ cp.name ∈ LOCAL_PROVIDERS
        · by_cases hcond : cur.settings.enabled = false ∧
              (hasUser = false ∨ cp.name ∈ prevAuto)
          · rw [autoEnableStep_fire hguard hmo hcond]
            refine ih _ _ _ c ?_ htrig2
            rw [objGet_objSet_ne m cp.name k (setEnabledTrue cur) (fun he => hname he.symm)]
            exact hget
          · rw [autoEnableStep_skip_cond hmo hcond]
            exact ih m newly flag c hget htrig2
        · rw [autoEnableStep_skip_guard hguard]
          exact ih m newly flag c hget htrig2

/-! A raised hasChanges flag comes from some triggered provider. -/

theorem foldl_autoEnableStep_flag_spec (hasUser : Bool) (prevAuto : List String)
    (report : List ConfiguredProvider) :
    ∀ (m : ProviderMap) (newly : List String),
      (report.foldl (autoEnableStep hasUser prevAuto) (m, newly, false)).2.2 = true →
      ∃ (k : String) (c : IProviderConfig), objGet m k = some c ∧
        ∃ e ∈ report, triggersAuto hasUser prevAuto c k e := by
  induction report with
  | nil => intro m newly h; simp at h
  | cons cp rest ih =>
    intro m newly h
    simp only [List.foldl_cons] at h
    cases hmo : objGet m cp.name with
    | none =>
      rw [autoEnableStep_skip_none hmo] at h
      obtain ⟨k, c, hget, e, he, ht⟩ := ih m newly h
      exact ⟨k, c, hget, e, List.mem_cons_of_mem _ he, ht⟩
    | some cur =>
      by_cases hguard : cp.isConfigured = true ∧
          cp.configMethod = ConfigMethod.environment ∧ cp.name ∈ LOCAL_PROVIDERS
      · by_cases hcond : cur.settings.enabled = false ∧
            (hasUser = false ∨ cp.name ∈ prevAuto)
        · exact ⟨cp.name, cur, hmo, cp, List.mem_cons_self cp rest,
            ⟨rfl, hguard.1, hguard.2.1, hguard.2.2, hcond.1, hcond.2⟩⟩
        · rw [autoEnableStep_skip_cond hmo hcond] at h
          obtain ⟨k, c, hget, e, he, ht⟩ := ih m newly h
          exact ⟨k, c, hget, e, List.mem_cons_of_mem _ he, ht⟩
      · rw [autoEnableStep_skip_guard hguard] at h
        obtain ⟨k, c, hget, e, he, ht⟩ := ih m newly h
        exact ⟨k, c, hget, e, List.mem_cons_of_mem _ he, ht⟩

/-! Top-level equations for autoEnableConfiguredProviders. -/

theorem autoEnable_fired_state (st : ReconcilerState) (report : List ConfiguredProvider)
    (hflag : (autoEnableFold st report).2.2 = true) :
    autoEnableConfiguredProviders st report =
      { store := (autoEnableFold st report).1,
        persisted := StoredSnapshot.parsed (autoEnableFold st report).1,
        autoHistory := some (jsSetDedup (histList st ++ (autoEnableFold st report).2.1)) } := by
  unfold autoEnableConfiguredProviders
  simp [hflag]

theorem autoEnable_not_fired (st : ReconcilerState) (report : List ConfiguredProvider)
    (hflag : (autoEnableFold st report).2.2 = false) :
    autoEnableConfiguredProviders st report = st := by
  unfold autoEnableConfiguredProviders
  simp [hflag]

theorem hasUserSettings_eq_false_iff (st : ReconcilerState) :
    hasUserSettings st = false ↔ st.persisted = StoredSnapshot.absent := by
  obtain ⟨store, persisted, hist⟩ := st
  cases persisted <;> simp [hasUserSettings]

/-- Pointwise description of the store after a full
autoEnableConfiguredProviders pass: an entry is flipped to enabled
exactly when some report entry triggers it, and is untouched otherwise. -/
theorem objGet_autoEnable (st : ReconcilerState) (report : List ConfiguredProvider)
    (k : String) (c : IProviderConfig) (hget : objGet st.store k = some c) :
    objGet (autoEnableConfiguredProviders st report).store k =
      some (if ∃ e ∈ report, triggersAuto (hasUserSettings st) (histList st) c k e
            then setEnabledTrue c else c) := by
  by_cases htrig : ∃ e ∈ report, triggersAuto (hasUserSettings st) (histList st) c k e
  · have hflag : (autoEnableFold st report).2.2 = true :=
      (foldl_autoEnableStep_fires (hasUserSettings st) (histList st) k report
        st.store [] false c hget htrig).2
    rw [autoEnable_fired_state st report hflag]
    rw [if_pos htrig]
    have := objGet_foldl_autoEnableStep (hasUserSettings st) (histList st) k report
      st.store [] false c hget
    rw [if_pos htrig] at this
    exact this
  · cases hflag : (autoEnableFold st report).2.2 with
    | false =>
      rw [autoEnable_not_fired st report hflag, if_neg htrig]
      exact hget
    | true =>
      rw [autoEnable_fired_state st report hflag, if_neg htrig]
      have := objGet_foldl_autoEnableStep (hasUserSettings st) (histList st) k report
        st.store [] false c hget
      rw [if_neg htrig] at this
      exact this

/-! Lookup into the defaults built by getInitialProviderSettings. -/

theorem objGet_defaults_foldl (pl : List String) :
    ∀ (acc : ProviderMap) (k : String),
      objGet (pl.foldl (fun m name => objSet m name (defaultEntry name)) acc) k =
        if k ∈ pl then some (defaultEntry k) else objGet acc k := by
  induction pl with
  | nil => intro acc k; simp
  | cons n rest ih =>
    intro acc k
    simp only [List.foldl_cons]
    rw [ih]
    by_cases hk : k ∈ rest
    · simp [hk, List.mem_cons]
    · by_cases hkn : k = n
      · subst hkn
        simp [hk, objGet_objSet_self]
      · rw [if_neg hk]
        rw [objGet_objSet_ne acc n k (defaultEntry n) hkn]
        have hnc : ¬k ∈ n :: rest := by simp [hkn, hk]
        rw [if_neg hnc]

theorem objGet_getInitial_absent (pl : List String) (name : String) (hmem : name ∈ pl) :
    objGet (getInitialProviderSettings pl StoredSnapshot.absent) name =
      some (defaultEntry name) := by
  show objGet (defaultProviderSettings pl) name = some (defaultEntry name)
  unfold defaultProviderSettings
  rw [objGet_defaults_foldl pl [] name, if_pos hmem]

/-- C1: for any state and report, a local provider reported configured via
environment and present in the current map is flipped to enabled exactly
when it is currently disabled and either no persisted snapshot exists or
the provider is in the auto-enabled history; whenever it is flipped, its
name lands in the persisted deduplicated history and the whole resulting
map is persisted. -/
theorem autoEnable_policy (st : ReconcilerState) (report : List ConfiguredProvider)
    (cp : ConfiguredProvider) (c : IProviderConfig)
    (hmem : cp ∈ report) (hconf : cp.isConfigured = true)
    (hmeth : cp.configMethod = ConfigMethod.environment)
    (hloc : cp.name ∈ LOCAL_PROVIDERS)
    (hget : objGet st.store cp.name = some c) :
    ((objGet (autoEnableConfiguredProviders st report).store cp.name =
        some (setEnabledTrue c) ∧ c.settings.enabled = false) ↔
      (c.settings.enabled = false ∧
        (st.persisted = StoredSnapshot.absent ∨ cp.name ∈ histList st))) ∧
    (c.settings.enabled = false →
      (st.persisted = StoredSnapshot.absent ∨ cp.name ∈ histList st) →
      cp.name ∈ histList (autoEnableConfiguredProviders st report) ∧
        (histList (autoEnableConfiguredProviders st report)).Nodup ∧
        (autoEnableConfiguredProviders st report).persisted =
          StoredSnapshot.parsed (autoEnableConfiguredProviders st report).store) := by
  have hmaster := objGet_autoEnable st report cp.name c hget
  constructor
  · constructor
    · rintro ⟨heq, hdis⟩
      refine ⟨hdis, ?_⟩
      by_contra hnc
      push_neg at hnc
      obtain ⟨habs, hmemh⟩ := hnc
      have huser : hasUserSettings st = true := by
        cases hu : hasUserSettings st with
        | false => exact absurd ((hasUserSettings_eq_false_iff st).mp hu) habs
        | true => rfl
      have hnot : ¬∃ e ∈ report,
          triggersAuto (hasUserSettings st) (histList st) c cp.name e := by
        rintro ⟨e, _, ht⟩
        rcases ht.2.2.2.2.2 with h | h
        · rw [huser] at h; exact Bool.noConfusion h
        · exact hmemh h
      rw [if_neg hnot] at hmaster
      rw [hmaster] at heq
      have hc := Option.some.inj heq
      have hE := congrArg (fun x => x.settings.enabled) hc
      simp [setEnabledTrue, hdis] at hE
    · rintro ⟨hdis, hcond⟩
      have hhu : hasUserSettings st = false ∨ cp.name ∈ histList st := by
        rcases hcond with h | h
        · exact Or.inl ((hasUserSettings_eq_false_iff st).mpr h)
        · exact Or.inr h
      have htrig : ∃ e ∈ report,
          triggersAuto (hasUserSettings st) (histList st) c cp.name e :=
        ⟨cp, hmem, ⟨rfl, hconf, hmeth, hloc, hdis, hhu⟩⟩
      rw [if_pos htrig] at hmaster
      exact ⟨hmaster, hdis⟩
  · intro hdis hcond
    have hhu : hasUserSettings st = false ∨ cp.name ∈ histList st := by
      rcases hcond with h | h
      · exact Or.inl ((hasUserSettings_eq_false_iff st).mpr h)
      · exact Or.inr h
    have htrig : ∃ e ∈ report,
        triggersAuto (hasUserSettings st) (histList st) c cp.name e :=
      ⟨cp, hmem, ⟨rfl, hconf, hmeth, hloc, hdis, hhu⟩⟩
    have hfires := foldl_autoEnableStep_fires (hasUserSettings st) (histList st) cp.name
      report st.store [] false c hget htrig
    have hflag : (autoEnableFold st report).2.2 = true := hfires.2
    rw [autoEnable_fired_state st report hflag]
    refine ⟨?_, ?_, rfl⟩
    · simp only [histList, Option.getD_some]
      exact (mem_jsSetDedup _ _).mpr (List.mem_append_right _ hfires.1)
    · simp only [histList, Option.getD_some]
      exact nodup_jsSetDedup _

theorem autoEnable_policy_witness :
    objGet (autoEnableConfiguredProviders
        ⟨[("Ollama", ⟨⟨false, Option.none⟩⟩)], StoredSnapshot.absent, Option.none⟩
        [⟨"Ollama", true, ConfigMethod.environment⟩]).store "Ollama" =
      some ⟨⟨true, Option.none⟩⟩ ∧
    "Ollama" ∈ histList (autoEnableConfiguredProviders
        ⟨[("Ollama", ⟨⟨false, Option.none⟩⟩)], StoredSnapshot.absent, Option.none⟩
        [⟨"Ollama", true, ConfigMethod.environment⟩]) := by
  have h := autoEnable_policy
    ⟨[("Ollama", ⟨⟨false, Option.none⟩⟩)], StoredSnapshot.absent, Option.none⟩
    [⟨"Ollama", true, ConfigMethod.environment⟩]
    ⟨"Ollama", true, ConfigMethod.environment⟩ ⟨⟨false, Option.none⟩⟩
    (by decide) rfl rfl (by decide) rfl
  exact ⟨(h.1.mpr ⟨rfl, Or.inl rfl⟩).1, (h.2 rfl (Or.inl rfl)).1⟩

/-- C2: the automatic pass never flips a provider from enabled to
disabled; the entry of any enabled provider is left untouched. -/
theorem autoEnable_never_disables (st : ReconcilerState) (report : List ConfiguredProvider)
    (k : String) (c : IProviderConfig) (hget : objGet st.store k = some c)
    (hen : c.settings.enabled = true) :
    objGet (autoEnableConfiguredProviders st report).store k = some c := by
  have hmaster := objGet_autoEnable st report k c hget
  have hnot : ¬∃ e ∈ report, triggersAuto (hasUserSettings st) (histList st) c k e := by
    rintro ⟨e, _, ht⟩
    rw [ht.2.2.2.2.1] at hen
    exact Bool.noConfusion hen
  rw [if_neg hnot] at hmaster
  exact hmaster

theorem autoEnable_never_disables_witness :
    objGet (autoEnableConfiguredProviders
        ⟨[("OpenAI", ⟨⟨true, Option.none⟩⟩), ("Ollama", ⟨⟨false, Option.none⟩⟩)],
          StoredSnapshot.absent, Option.none⟩
        [⟨"Ollama", true, ConfigMethod.environment⟩]).store "OpenAI" =
      some ⟨⟨true, Option.none⟩⟩ :=
  autoEnable_never_disables
    ⟨[("OpenAI", ⟨⟨true, Option.none⟩⟩), ("Ollama", ⟨⟨false, Option.none⟩⟩)],
      StoredSnapshot.absent, Option.none⟩
    [⟨"Ollama", true, ConfigMethod.environment⟩] "OpenAI" ⟨⟨true, Option.none⟩⟩ rfl rfl

/-- C3: with a persisted snapshot present, a disabled local provider that
is absent from the auto-enabled history stays disabled, whatever the
detection report says. -/
theorem autoEnable_sticky_disable (st : ReconcilerState) (report : List ConfiguredProvider)
    (name : String) (c : IProviderConfig)
    (hsnap : st.persisted ≠ StoredSnapshot.absent)
    (hget : objGet st.store name = some c)
    (hdis : c.settings.enabled = false)
    (hhist : name ∉ histList st) :
    objGet (autoEnableConfiguredProviders st report).store name = some c ∧
      (objGet (autoEnableConfiguredProviders st report).store name).map
        (fun e => e.settings.enabled) = some false := by
  have hmaster := objGet_autoEnable st report name c hget
  have hnot : ¬∃ e ∈ report, triggersAuto (hasUserSettings st) (histList st) c name e := by
    rintro ⟨e, _, ht⟩
    rcases ht.2.2.2.2.2 with h | h
    · exact hsnap ((hasUserSettings_eq_false_iff st).mp h)
    · exact hhist h
  rw [if_neg hnot] at hmaster
  refine ⟨hmaster, ?_⟩
  rw [hmaster]
  simp [hdis]

theorem autoEnable_sticky_disable_witness :
    objGet (autoEnableConfiguredProviders
        ⟨[("Ollama", ⟨⟨false, Option.none⟩⟩)],
          StoredSnapshot.parsed [("Ollama", ⟨⟨false, Option.none⟩⟩)], some []⟩
        [⟨"Ollama", true, ConfigMethod.environment⟩]).store "Ollama" =
      some ⟨⟨false, Option.none⟩⟩ :=
  (autoEnable_sticky_disable
    ⟨[("Ollama", ⟨⟨false, Option.none⟩⟩)],
      StoredSnapshot.parsed [("Ollama", ⟨⟨false, Option.none⟩⟩)], some []⟩
    [⟨"Ollama", true, ConfigMethod.environment⟩] "Ollama" ⟨⟨false, Option.none⟩⟩
    (by decide) rfl rfl (by decide)).1

/-- C4: on a first run (no persisted snapshot, store built from the
defaults), every local provider reported configured via environment ends
the pass enabled and recorded in the persisted history. -/
theorem autoEnable_first_run (pl : List String) (hist0 : Option (List String))
    (report : List ConfiguredProvider) (cp : ConfiguredProvider)
    (hname : cp.name ∈ pl) (hloc : cp.name ∈ LOCAL_PROVIDERS)
    (hmem : cp ∈ report) (hconf : cp.isConfigured = true)
    (hmeth : cp.configMethod = ConfigMethod.environment) :
    (objGet (autoEnableConfiguredProviders
        ⟨getInitialProviderSettings pl StoredSnapshot.absent, StoredSnapshot.absent, hist0⟩
        report).store cp.name).map (fun e => e.settings.enabled) = some true ∧
      cp.name ∈ histList (autoEnableConfiguredProviders
        ⟨getInitialProviderSettings pl StoredSnapshot.absent, StoredSnapshot.absent, hist0⟩
        report) := by
  set st : ReconcilerState := ⟨getInitialProviderSettings pl StoredSnapshot.absent,
    StoredSnapshot.absent, hist0⟩ with hst
  have hget : objGet st.store cp.name = some (defaultEntry cp.name) :=
    objGet_getInitial_absent pl cp.name hname
  have hdis : (defaultEntry cp.name).settings.enabled = false := by
    simp [defaultEntry, hloc]
  have huser : hasUserSettings st = false := rfl
  have htrig : ∃ e ∈ report, triggersAuto (hasUserSettings st) (histList st)
      (defaultEntry cp.name) cp.name e :=
    ⟨cp, hmem, ⟨rfl, hconf, hmeth, hloc, hdis, Or.inl huser⟩⟩
  have hmaster := objGet_autoEnable st report cp.name (defaultEntry cp.name) hget
  rw [if_pos htrig] at hmaster
  have hfires := foldl_autoEnableStep_fires (hasUserSettings st) (histList st) cp.name
    report st.store [] false (defaultEntry cp.name) hget htrig
  constructor
  · rw [hmaster]
    simp [setEnabledTrue]
  · rw [autoEnable_fired_state st report hfires.2]
    simp only [histList, Option.getD_some]
    exact (mem_jsSetDedup _ _).mpr (List.mem_append_right _ hfires.1)

theorem autoEnable_first_run_witness :
    (objGet (autoEnableConfiguredProviders
        ⟨getInitialProviderSettings ["Ollama", "LMStudio", "OpenAILike", "OpenAI"]
            StoredSnapshot.absent, StoredSnapshot.absent, Option.none⟩
        [⟨"Ollama", true, ConfigMethod.environment⟩,
          ⟨"LMStudio", false, ConfigMethod.none⟩,
          ⟨"OpenAILike", false, ConfigMethod.none⟩]).store "Ollama").map
      (fun e => e.settings.enabled) = some true ∧
    "Ollama" ∈ histList (autoEnableConfiguredProviders
        ⟨getInitialProviderSettings ["Ollama", "LMStudio", "OpenAILike", "OpenAI"]
            StoredSnapshot.absent, StoredSnapshot.absent, Option.none⟩
        [⟨"Ollama", true, ConfigMethod.environment⟩,
          ⟨"LMStudio", false, ConfigMethod.none⟩,
          ⟨"OpenAILike", false, ConfigMethod.none⟩]) :=
  autoEnable_first_run ["Ollama", "LMStudio", "OpenAILike", "OpenAI"] Option.none
    [⟨"Ollama", true, ConfigMethod.environment⟩,
      ⟨"LMStudio", false, ConfigMethod.none⟩,
      ⟨"OpenAILike", false, ConfigMethod.none⟩]
    ⟨"Ollama", true, ConfigMethod.environment⟩
    (by decide) (by decide) (by decide) rfl rfl

/-- C9: when the pass flips no provider (the resulting store equals the
current store), the whole state is unchanged: no store update and no
persisted write of the snapshot or of the history. -/
theorem autoEnable_no_flip_frame (st : ReconcilerState) (report : List ConfiguredProvider)
    (h : (autoEnableConfiguredProviders st report).store = st.store) :
    autoEnableConfiguredProviders st report = st := by
  cases hflag : (autoEnableFold st report).2.2 with
  | false => exact autoEnable_not_fired st report hflag
  | true =>
    exfalso
    have hflag2 : (report.foldl (autoEnableStep (hasUserSettings st) (histList st))
        (st.store, [], false)).2.2 = true := hflag
    obtain ⟨k, c, hget, htrig⟩ :=
      foldl_autoEnableStep_flag_spec (hasUserSettings st) (histList st) report
        st.store [] hflag2
    have hmaster := objGet_autoEnable st report k c hget
    rw [if_pos htrig, h, hget] at hmaster
    have hc := Option.some.inj hmaster
    obtain ⟨e, _, ht⟩ := htrig
    have hdis := ht.2.2.2.2.1
    rw [hc] at hdis
    simp [setEnabledTrue] at hdis

theorem autoEnable_no_flip_frame_witness :
    autoEnableConfiguredProviders
        ⟨[("Ollama", ⟨⟨false, Option.none⟩⟩)], StoredSnapshot.absent, Option.none⟩
        [⟨"OpenAILike", false, ConfigMethod.none⟩, ⟨"LMStudio", false, ConfigMethod.none⟩,
          ⟨"Ollama", false, ConfigMethod.none⟩] =
      ⟨[("Ollama", ⟨⟨false, Option.none⟩⟩)], StoredSnapshot.absent, Option.none⟩ :=
  autoEnable_no_flip_frame _ _ (by decide)

/-! Keys of the defaults and of the snapshot overlay. -/

theorem keys_defaults_foldl (pl : List String) :
    ∀ acc : ProviderMap,
      ((pl.foldl (fun m name => objSet m name (defaultEntry name)) acc).map Prod.fst) =
        pl.foldl insertUnique (acc.map Prod.fst) := by
  induction pl with
  | nil => intro acc; rfl
  | cons n rest ih =>
    intro acc
    simp only [List.foldl_cons]
    rw [ih, keys_objSet]

theorem keys_overlayStep (m : ProviderMap) (kv : String × IProviderConfig) :
    (overlayStep m kv).map Prod.fst = m.map Prod.fst := by
  unfold overlayStep
  cases hg : objGet m kv.1 with
  | none => rfl
  | some cur =>
    rw [keys_objSet]
    have hmem : kv.1 ∈ m.map Prod.fst := mem_keys_of_objGet m kv.1 cur hg
    simp [insertUnique, hmem]

theorem keys_overlaySnapshot (entries : List (String × IProviderConfig)) :
    ∀ m : ProviderMap, (overlaySnapshot entries m).map Prod.fst = m.map Prod.fst := by
  induction entries with
  | nil => intro m; rfl
  | cons kv rest ih =>
    intro m
    show (overlaySnapshot rest (overlayStep m kv)).map Prod.fst = m.map Prod.fst
    rw [ih, keys_overlayStep]

theorem keys_getInitial (pl : List String) (snap : StoredSnapshot) :
    (getInitialProviderSettings pl snap).map Prod.fst = jsSetDedup pl := by
  have hdef : (defaultProviderSettings pl).map Prod.fst = jsSetDedup pl := by
    unfold defaultProviderSettings jsSetDedup
    rw [keys_defaults_foldl pl []]
    rfl
  cases snap with
  | absent => exact hdef
  | malformed => exact hdef
  | parsed entries =>
    show (overlaySnapshot entries (defaultProviderSettings pl)).map Prod.fst = _
    rw [keys_overlaySnapshot, hdef]

theorem objGet_overlayStep_ne (m : ProviderMap) (kv : String × IProviderConfig)
    (k : String) (h : k ≠ kv.1) :
    objGet (overlayStep m kv) k = objGet m k := by
  unfold overlayStep
  cases hg : objGet m kv.1 with
  | none => rfl
  | some cur => exact objGet_objSet_ne m kv.1 k _ h

theorem objGet_overlay_not_mem (entries : List (String × IProviderConfig)) :
    ∀ (m : ProviderMap) (k : String), k ∉ entries.map Prod.fst →
      objGet (overlaySnapshot entries m) k = objGet m k := by
  induction entries with
  | nil => intro m k _; rfl
  | cons kv rest ih =>
    intro m k h
    simp only [List.map_cons, List.mem_cons] at h
    push_neg at h
    show objGet (overlaySnapshot rest (overlayStep m kv)) k = objGet m k
    rw [ih _ k h.2]
    exact objGet_overlayStep_ne m kv k h.1

theorem overlayStep_hit (m : ProviderMap) (name : String) (v cur : IProviderConfig)
    (hg : objGet m name = some cur) :
    overlayStep m (name, v) = objSet m name ⟨v.settings⟩ := by
  simp [overlayStep, hg]

theorem objGet_overlay_mem (entries : List (String × IProviderConfig)) :
    ∀ (m : ProviderMap) (name : String) (v : IProviderConfig),
      (entries.map Prod.fst).Nodup → (name, v) ∈ entries →
      (objGet m name).isSome = true →
      objGet (overlaySnapshot entries m) name = some ⟨v.settings⟩ := by
  induction entries with
  | nil => intro m name v _ hmem _; simp at hmem
  | cons kv rest ih =>
    intro m name v hnd hmem hsome
    obtain ⟨k1, v1⟩ := kv
    simp only [List.map_cons, List.nodup_cons] at hnd
    rcases List.mem_cons.mp hmem with heq | hmem2
    · have h1 : name = k1 := congrArg Prod.fst heq
      have h2 : v = v1 := congrArg Prod.snd heq
      subst h1
      subst h2
      obtain ⟨cur, hg⟩ := Option.isSome_iff_exists.mp hsome
      show objGet (overlaySnapshot rest (overlayStep m (name, v))) name = some ⟨v.settings⟩
      rw [objGet_overlay_not_mem rest _ name hnd.1]
      rw [overlayStep_hit m name v cur hg]
      exact objGet_objSet_self m name ⟨v.settings⟩
    · have hk1 : k1 ≠ name := by
        intro he
        subst he
        exact hnd.1 (List.mem_map_of_mem Prod.fst hmem2)
      show objGet (overlaySnapshot rest (overlayStep m (k1, v1))) name = some ⟨v.settings⟩
      apply ih (overlayStep m (k1, v1)) name v hnd.2 hmem2
      rw [objGet_overlayStep_ne m (k1, v1) name (fun he => hk1 he.symm)]
      exact hsome

/-- C7: getInitialProviderSettings builds a map whose keys are exactly
the known providers, local ones disabled and others enabled by default;
a parsed snapshot overlays only the settings sub-record of keys present
in the defaults, unknown keys add no entry, and a snapshot that fails to
parse is ignored entirely, falling back to defaults-only. -/
theorem initialize_spec (pl : List String) (hpl : pl.Nodup) (snap : StoredSnapshot) :
    ((getInitialProviderSettings pl snap).map Prod.fst = pl) ∧
    (∀ name ∈ pl, objGet (getInitialProviderSettings pl StoredSnapshot.absent) name =
        some ⟨⟨if name ∈ LOCAL_PROVIDERS then false else true, Option.none⟩⟩) ∧
    (getInitialProviderSettings pl StoredSnapshot.malformed =
        getInitialProviderSettings pl StoredSnapshot.absent) ∧
    (∀ k, k ∉ pl → objGet (getInitialProviderSettings pl snap) k = Option.none) ∧
    (∀ entries name v, snap = StoredSnapshot.parsed entries →
        (entries.map Prod.fst).Nodup → (name, v) ∈ entries → name ∈ pl →
        objGet (getInitialProviderSettings pl snap) name = some ⟨v.settings⟩) := by
  have hkeys : (getInitialProviderSettings pl snap).map Prod.fst = pl := by
    rw [keys_getInitial, jsSetDedup_of_nodup pl hpl]
  refine ⟨hkeys, ?_, rfl, ?_, ?_⟩
  · intro name hname
    rw [objGet_getInitial_absent pl name hname]
    rfl
  · intro k hk
    apply objGet_eq_none_of_not_mem_keys
    rw [hkeys]
    exact hk
  · intro entries name v hsnap hnd hmem hname
    subst hsnap
    show objGet (overlaySnapshot entries (defaultProviderSettings pl)) name =
      some ⟨v.settings⟩
    apply objGet_overlay_mem entries _ name v hnd hmem
    have hdef := objGet_getInitial_absent pl name hname
    rw [show getInitialProviderSettings pl StoredSnapshot.absent =
        defaultProviderSettings pl from rfl] at hdef
    rw [hdef]
    rfl

theorem initialize_spec_witness :
    ((getInitialProviderSettings ["Ollama", "OpenAI"]
        (StoredSnapshot.parsed [("Ollama", ⟨⟨true, some "http://localhost:11434"⟩⟩),
          ("Ghost", ⟨⟨true, Option.none⟩⟩)])).map Prod.fst = ["Ollama", "OpenAI"]) ∧
    objGet (getInitialProviderSettings ["Ollama", "OpenAI"]
        (StoredSnapshot.parsed [("Ollama", ⟨⟨true, some "http://localhost:11434"⟩⟩),
          ("Ghost", ⟨⟨true, Option.none⟩⟩)])) "Ghost" = Option.none ∧
    objGet (getInitialProviderSettings ["Ollama", "OpenAI"]
        (StoredSnapshot.parsed [("Ollama", ⟨⟨true, some "http://localhost:11434"⟩⟩),
          ("Ghost", ⟨⟨true, Option.none⟩⟩)])) "Ollama" =
      some ⟨⟨true, some "http://localhost:11434"⟩⟩ := by
  have h := initialize_spec ["Ollama", "OpenAI"] (by decide)
    (StoredSnapshot.parsed [("Ollama", ⟨⟨true, some "http://localhost:11434"⟩⟩),
      ("Ghost", ⟨⟨true, Option.none⟩⟩)])
  exact ⟨h.1, h.2.2.2.1 "Ghost" (by decide),
    h.2.2.2.2 _ "Ollama" ⟨⟨true, some "http://localhost:11434"⟩⟩ rfl (by decide)
      (by decide) (by decide)⟩

/-! updateAutoEnabledTracking membership facts. -/

theorem mem_tracking_enabled (hist : Option (List String)) (n : String) :
    n ∈ (updateAutoEnabledTracking hist n true).getD [] := by
  unfold updateAutoEnabledTracking
  by_cases h : n ∈ hist.getD []
  · simp [h]
  · simp [h]

theorem not_mem_tracking_disabled (hist : Option (List String)) (n : String) :
    n ∉ (updateAutoEnabledTracking hist n false).getD [] := by
  unfold updateAutoEnabledTracking
  simp

/-- C8 counterexample: a patch that does not touch enabled (it only sets
the base URL) still rewrites the auto-enabled history for a local
provider, because the source guards the tracking update on the merged
settings rather than on the patch: with Ollama enabled and an empty
history, patching only the base URL pushes Ollama onto the history. -/
theorem update_touch_enabled_counterexample :
    (⟨Option.none, some (some "http://localhost:1234")⟩ : SettingsPatch).enabled =
        Option.none ∧
    (⟨[("Ollama", ⟨⟨true, Option.none⟩⟩)],
        StoredSnapshot.parsed [("Ollama", ⟨⟨true, Option.none⟩⟩)],
        some []⟩ : ReconcilerState).autoHistory = some [] ∧
    (updateProviderSettings
        ⟨[("Ollama", ⟨⟨true, Option.none⟩⟩)],
          StoredSnapshot.parsed [("Ollama", ⟨⟨true, Option.none⟩⟩)], some []⟩
        "Ollama" ⟨Option.none, some (some "http://localhost:1234")⟩).map
        (fun st => st.autoHistory) = some (some ["Ollama"]) := by
  refine ⟨rfl, rfl, ?_⟩
  decide

/-- C8 amended: updateProviderSettings shallow-merges the patch into the
settings sub-record of the named provider, persists the full map, and
whenever the provider is local (whether or not the patch touches
enabled) updates the auto-enabled history from the merged enabled value:
true leaves the name in the history, false removes it; for non-local
providers the history is untouched. -/
theorem update_provider_settings_spec (st : ReconcilerState) (provider : String)
    (patch : SettingsPatch) (current : IProviderConfig)
    (hget : objGet st.store provider = some current) :
    ∃ st1, updateProviderSettings st provider patch = some st1 ∧
      objGet st1.store provider = some ⟨mergeSettings current.settings patch⟩ ∧
      (∀ k, k ≠ provider → objGet st1.store k = objGet st.store k) ∧
      st1.persisted = StoredSnapshot.parsed st1.store ∧
      (provider ∉ LOCAL_PROVIDERS → st1.autoHistory = st.autoHistory) ∧
      (provider ∈ LOCAL_PROVIDERS →
        ((mergeSettings current.settings patch).enabled = true →
          provider ∈ st1.autoHistory.getD []) ∧
        ((mergeSettings current.settings patch).enabled = false →
          provider ∉ st1.autoHistory.getD [])) := by
  have hupd : updateProviderSettings st provider patch =
      some { store := objSet st.store provider ⟨mergeSettings current.settings patch⟩,
             persisted := StoredSnapshot.parsed
               (objSet st.store provider ⟨mergeSettings current.settings patch⟩),
             autoHistory :=
               if provider ∈ LOCAL_PROVIDERS then
                 updateAutoEnabledTracking st.autoHistory provider
                   (mergeSettings current.settings patch).enabled
               else st.autoHistory } := by
    simp [updateProviderSettings, hget]
  refine ⟨_, hupd, ?_, ?_, rfl, ?_, ?_⟩
  · exact objGet_objSet_self st.store provider ⟨mergeSettings current.settings patch⟩
  · intro k hk
    exact objGet_objSet_ne st.store provider k _ hk
  · intro h
    simp only [if_neg h]
  · intro h
    simp only [if_pos h]
    constructor
    · intro he
      rw [he]
      exact mem_tracking_enabled st.autoHistory provider
    · intro he
      rw [he]
      exact not_mem_tracking_disabled st.autoHistory provider

theorem update_provider_settings_witness :
    ∃ st1, updateProviderSettings
        ⟨[("LMStudio", ⟨⟨false, Option.none⟩⟩)],
          StoredSnapshot.parsed [("LMStudio", ⟨⟨false, Option.none⟩⟩)], some []⟩
        "LMStudio" ⟨some true, Option.none⟩ = some st1 ∧
      objGet st1.store "LMStudio" = some ⟨⟨true, Option.none⟩⟩ ∧
      (∀ k, k ≠ "LMStudio" → objGet st1.store k =
        objGet [("LMStudio", (⟨⟨false, Option.none⟩⟩ : IProviderConfig))] k) ∧
      st1.persisted = StoredSnapshot.parsed st1.store ∧
      ("LMStudio" ∉ LOCAL_PROVIDERS → st1.autoHistory = some []) ∧
      ("LMStudio" ∈ LOCAL_PROVIDERS →
        ((true : Bool) = true → "LMStudio" ∈ st1.autoHistory.getD []) ∧
        ((true : Bool) = false → "LMStudio" ∉ st1.autoHistory.getD [])) :=
  update_provider_settings_spec
    ⟨[("LMStudio", ⟨⟨false, Option.none⟩⟩)],
      StoredSnapshot.parsed [("LMStudio", ⟨⟨false, Option.none⟩⟩)], some []⟩
    "LMStudio" ⟨some true, Option.none⟩ ⟨⟨false, Option.none⟩⟩ rfl

/-- C5: any environment value containing a placeholder marker, or a
base-URL value not starting with http, or an API-token value of length
at most 10, fails the corresponding validity check of the detector; in
particular the token value sk-your_key_here makes the detector report
the provider unconfigured. -/
theorem detector_placeholder_rejection :
    (∀ v : String, strIncludes v "your_" = true ∨ strIncludes v "_here" = true ∨
        jsStartsWith v "http" = false → isValidEnvValue v = false) ∧
    (∀ v : String, strIncludes v "your_" = true ∨ strIncludes v "_here" = true ∨
        v.length ≤ 10 → isValidApiToken v = false) ∧
    detectProvider (fun _ => Option.none) (fun _ => Option.none)
        (fun key => if key = "OPENAI_LIKE_API_KEY" then some "sk-your_key_here"
          else Option.none)
        (fun name => if name = "OpenAILike" then
            some ⟨Option.none, some "OPENAI_LIKE_API_KEY"⟩
          else Option.none)
        "OpenAILike" = ⟨"OpenAILike", false, ConfigMethod.none⟩ := by
  refine ⟨?_, ?_, by decide⟩
  · intro v hv
    unfold isValidEnvValue
    rcases hv with h | h | h <;> simp [h]
  · intro v hv
    unfold isValidApiToken
    rcases hv with h | h | h
    · simp [h]
    · simp [h]
    · have hlen : decide (10 < v.length) = false :=
        decide_eq_false_iff_not.mpr (Nat.not_lt.mpr h)
      simp [hlen]

theorem detector_placeholder_rejection_witness :
    isValidEnvValue "your_base_url" = false ∧
    isValidApiToken "sk-your_key_here" = false :=
  ⟨detector_placeholder_rejection.1 "your_base_url" (Or.inl (by decide)),
    detector_placeholder_rejection.2.1 "sk-your_key_here" (Or.inl (by decide))⟩

/-- C6: when the detection pass fails with any exception, the loader
still returns one entry per local provider, in the LOCAL_PROVIDERS list
order, each unconfigured with configMethod none, instead of propagating
the failure. -/
theorem detector_failure_fallback (e : String) :
    loader (Except.error e) =
      LOCAL_PROVIDERS.map (fun name => ⟨name, false, ConfigMethod.none⟩) ∧
    (loader (Except.error e)).map (fun cp => cp.name) = LOCAL_PROVIDERS ∧
    ∀ cp ∈ loader (Except.error e),
      cp.isConfigured = false ∧ cp.configMethod = ConfigMethod.none := by
  have h1 : loader (Except.error e) = loaderFallbackProviders := rfl
  refine ⟨rfl, ?_, ?_⟩
  · rw [h1]; decide
  · rw [h1]; decide

theorem detector_failure_fallback_witness :
    loader (Except.error "registry unavailable") =
      [⟨"OpenAILike", false, ConfigMethod.none⟩, ⟨"LMStudio", false, ConfigMethod.none⟩,
        ⟨"Ollama", false, ConfigMethod.none⟩] := by
  have h := detector_failure_fallback "registry unavailable"
  rw [h.1]
  decide

/-- C10: a base-URL environment value that begins with a whitespace
character fails the validity check, because startsWith http is applied
to the untrimmed value; concretely, a leading space before
http://localhost:11434 makes the detector report Ollama unconfigured. -/
theorem detector_untrimmed_whitespace :
    (∀ (v : String) (c : Char) (rest : List Char),
        v.data = c :: rest → c.isWhitespace = true → isValidEnvValue v = false) ∧
    detectProvider
        (fun key => if key = "OLLAMA_API_BASE_URL" then some " http://localhost:11434"
          else Option.none)
        (fun _ => Option.none) (fun _ => Option.none)
        (fun name => if name = "Ollama" then
            some ⟨some "OLLAMA_API_BASE_URL", Option.none⟩
          else Option.none)
        "Ollama" = ⟨"Ollama", false, ConfigMethod.none⟩ := by
  constructor
  · intro v c rest hv hc
    have hsw : jsStartsWith v "http" = false := by
      unfold jsStartsWith
      rw [hv]
      have hne : ¬('h' = c) := by
        intro h
        rw [← h] at hc
        exact absurd hc (by decide)
      show beginsWith ('h' :: 't' :: 't' :: 'p' :: []) (c :: rest) = false
      simp [beginsWith, hne]
    unfold isValidEnvValue
    simp [hsw]
  · decide

theorem detector_untrimmed_whitespace_witness :
    isValidEnvValue " http://localhost:11434" = false :=
  detector_untrimmed_whitespace.1 " http://localhost:11434" ' '
    "http://localhost:11434".data rfl (by decide)
